import Mathlib

/-!
Verification development for the `vite-plugin-sri` plugin (`src/index.ts`).

The plugin accumulates rollup output bundles across `writeBundle` calls,
selects the `.html` asset entries of the accumulated bundle, and for every
`script[src]` / `link[href]` element of such a document resolves the
referenced content (bundle lookup by the record's `fileName` field, then a
filesystem fallback under the output directory), computes a SHA-384 digest,
and sets the `integrity` and `crossorigin` attributes before serializing the
document back to disk.

The definitions below are a shallow embedding of that source file:
  * machine words are `Nat` reduced mod `2 ^ 64`,
  * JS objects used as string-keyed maps (the accumulated bundle, an
    element's attribute set) are association lists with JS assignment
    semantics (overwrite the existing key in place, otherwise append),
  * the filesystem (`readFileSync(resolve(options.dir, p))`, with its
    `try/catch`) is a parameter `fs : String -> Option (List Nat)` giving
    the bytes of the file at the path `p` relative to the output
    directory, or `none` when the read throws,
  * cheerio's parser is a parameter `parse : Content -> List Node`; its
    serializer is modelled concretely by `serializeNodes`,
  * JS truthiness of `string | Uint8Array | undefined` values is modelled
    by `sourceTruthy` (`undefined` and `""` are falsy, every byte array is
    truthy),
  * `node:crypto`'s `createHash('sha384')` is modelled by a full SHA-384
    implementation over byte lists (`sha384Bytes`), and `.digest().toString('base64')`
    by `base64Encode`.
-/

/-- Arithmetic modulus for 64-bit words. -/
def M64 : Nat := 18446744073709551616

/-- Addition of 64-bit words. -/
def add64 (a b : Nat) : Nat := (a + b) % M64

/-- Right rotation of a 64-bit word by `n` (for `0 < n < 64`). -/
def rotr64 (x n : Nat) : Nat := (x % 2 ^ n) * 2 ^ (64 - n) + x / 2 ^ n

/-- Logical right shift of a 64-bit word. -/
def shr64 (x n : Nat) : Nat := x / 2 ^ n

/-- Bitwise complement of a 64-bit word. -/
def not64 (x : Nat) : Nat := (M64 - 1) - x

/-- SHA-512 choice function. -/
def ch64 (e f g : Nat) : Nat := (e &&& f) ^^^ (not64 e &&& g)

/-- SHA-512 majority function. -/
def maj64 (a b c : Nat) : Nat := (a &&& b) ^^^ (a &&& c) ^^^ (b &&& c)

/-- SHA-512 big sigma 0. -/
def bigSigma0 (x : Nat) : Nat := rotr64 x 28 ^^^ rotr64 x 34 ^^^ rotr64 x 39

/-- SHA-512 big sigma 1. -/
def bigSigma1 (x : Nat) : Nat := rotr64 x 14 ^^^ rotr64 x 18 ^^^ rotr64 x 41

/-- SHA-512 small sigma 0. -/
def smallSigma0 (x : Nat) : Nat := rotr64 x 1 ^^^ rotr64 x 8 ^^^ shr64 x 7

/-- SHA-512 small sigma 1. -/
def smallSigma1 (x : Nat) : Nat := rotr64 x 19 ^^^ rotr64 x 61 ^^^ shr64 x 6

/-- The 80 SHA-512 round constants. -/
def K512 : List Nat := [
  4794697086780616226, 8158064640168781261, 13096744586834688815, 16840607885511220156,
  4131703408338449720, 6480981068601479193, 10538285296894168987, 12329834152419229976,
  15566598209576043074, 1334009975649890238, 2608012711638119052, 6128411473006802146,
  8268148722764581231, 9286055187155687089, 11230858885718282805, 13951009754708518548,
  16472876342353939154, 17275323862435702243, 1135362057144423861, 2597628984639134821,
  3308224258029322869, 5365058923640841347, 6679025012923562964, 8573033837759648693,
  10970295158949994411, 12119686244451234320, 12683024718118986047, 13788192230050041572,
  14330467153632333762, 15395433587784984357, 489312712824947311, 1452737877330783856,
  2861767655752347644, 3322285676063803686, 5560940570517711597, 5996557281743188959,
  7280758554555802590, 8532644243296465576, 9350256976987008742, 10552545826968843579,
  11727347734174303076, 12113106623233404929, 14000437183269869457, 14369950271660146224,
  15101387698204529176, 15463397548674623760, 17586052441742319658, 1182934255886127544,
  1847814050463011016, 2177327727835720531, 2830643537854262169, 3796741975233480872,
  4115178125766777443, 5681478168544905931, 6601373596472566643, 7507060721942968483,
  8399075790359081724, 8693463985226723168, 9568029438360202098, 10144078919501101548,
  10430055236837252648, 11840083180663258601, 13761210420658862357, 14299343276471374635,
  14566680578165727644, 15097957966210449927, 16922976911328602910, 17689382322260857208,
  500013540394364858, 748580250866718886, 1242879168328830382, 1977374033974150939,
  2944078676154940804, 3659926193048069267, 4368137639120453308, 4836135668995329356,
  5532061633213252278, 6448918945643986474, 6902733635092675308, 7801388544844847127]

/-- The SHA-384 initial hash state (eight 64-bit words). -/
def sha384H0 : List Nat := [
  14680500436340154072, 7105036623409894663, 10473403895298186519, 1526699215303891257,
  7436329637833083697, 10282925794625328401, 15784041429090275239, 5167115440072839076]

/-- Big-endian byte decomposition of `x` into `n` bytes. -/
def beBytes : Nat → Nat → List Nat
  | 0, _ => []
  | n + 1, x => beBytes n (x / 256) ++ [x % 256]

/-- Group a byte list into big-endian 64-bit words (eight bytes per word). -/
def bytesToWords : List Nat → List Nat
  | b1 :: b2 :: b3 :: b4 :: b5 :: b6 :: b7 :: b8 :: rest =>
      (((((((b1 * 256 + b2) * 256 + b3) * 256 + b4) * 256 + b5) * 256 + b6) * 256 + b7) * 256 + b8)
        :: bytesToWords rest
  | _ => []

/-- SHA-512 message padding: append `0x80`, zero bytes, and the 128-bit
big-endian bit length, reaching a multiple of 128 bytes. -/
def sha512Pad (msg : List Nat) : List Nat :=
  let padZeros := (128 - (msg.length + 17) % 128) % 128
  msg ++ [128] ++ List.replicate padZeros 0 ++ beBytes 16 (msg.length * 8)

/-- Extend the 16 message-schedule words of a block to 80 words. -/
def buildW (w16 : List Nat) : List Nat :=
  (List.range 64).foldl
    (fun w _ =>
      let t := w.length
      w ++ [add64 (add64 (smallSigma1 (w.getD (t - 2) 0)) (w.getD (t - 7) 0))
              (add64 (smallSigma0 (w.getD (t - 15) 0)) (w.getD (t - 16) 0))])
    w16

/-- One SHA-512 compression round; the state is the list `[a,b,c,d,e,f,g,h]`
and `kw` the round constant paired with the schedule word. -/
def sha512Round (st : List Nat) (kw : Nat × Nat) : List Nat :=
  match st with
  | [a, b, c, d, e, f, g, h] =>
      let t1 := add64 (add64 (add64 (add64 h (bigSigma1 e)) (ch64 e f g)) kw.1) kw.2
      let t2 := add64 (bigSigma0 a) (maj64 a b c)
      [add64 t1 t2, a, b, c, add64 d t1, e, f, g]
  | other => other

/-- SHA-512 compression of one 128-byte block into the running hash state. -/
def sha512Compress (H : List Nat) (block : List Nat) : List Nat :=
  let w := buildW (bytesToWords block)
  let st := (K512.zip w).foldl sha512Round H
  (H.zip st).map (fun p => add64 p.1 p.2)

/-- SHA-384 digest (48 bytes) of a byte list. -/
def sha384Bytes (msg : List Nat) : List Nat :=
  let padded := sha512Pad msg
  let blocks := (List.range (padded.length / 128)).map
    (fun i => (padded.drop (i * 128)).take 128)
  let Hf := blocks.foldl sha512Compress sha384H0
  ((Hf.take 6).map (beBytes 8)).flatten

/-- The base64 alphabet. -/
def b64Alphabet : List Char :=
  "ABCDEFGHIJKLMNOPQRSTUVWXYZabcdefghijklmnopqrstuvwxyz0123456789+/".data

/-- Character of the base64 alphabet at index `i`. -/
def b64Char (i : Nat) : Char := b64Alphabet.getD i 'A'

/-- Standard base64 encoding of a byte list. -/
def base64Encode : List Nat → String
  | [] => ""
  | [b1] =>
      String.mk [b64Char (b1 / 4), b64Char (b1 % 4 * 16), '=', '=']
  | [b1, b2] =>
      String.mk [b64Char (b1 / 4), b64Char (b1 % 4 * 16 + b2 / 16), b64Char (b2 % 16 * 4), '=']
  | b1 :: b2 :: b3 :: rest =>
      String.mk [b64Char (b1 / 4), b64Char (b1 % 4 * 16 + b2 / 16),
        b64Char (b2 % 16 * 4 + b3 / 64), b64Char (b3 % 64)] ++ base64Encode rest

/-- UTF-8 encoding of one character, as byte values. -/
def utf8Char (c : Char) : List Nat :=
  let n := c.toNat
  if n < 128 then [n]
  else if n < 2048 then [192 + n / 64, 128 + n % 64]
  else if n < 65536 then [224 + n / 4096, 128 + n / 64 % 64, 128 + n % 64]
  else [240 + n / 262144, 128 + n / 4096 % 64, 128 + n / 64 % 64, 128 + n % 64]

/-- UTF-8 encoding of a string, as byte values (what node's
`hash.update(string)` feeds to the hash). -/
def utf8Bytes (s : String) : List Nat :=
  s.data.foldr (fun c acc => utf8Char c ++ acc) []

/-- Content of a JS `string | Uint8Array` value: either text or raw bytes. -/
inductive Content where
  | str : String → Content
  | bytes : List Nat → Content
deriving DecidableEq

/-- JS truthiness of a `string | Uint8Array` value: the empty string is
falsy, every other string and every byte array (even empty) is truthy. -/
def Content.truthy : Content → Bool
  | .str s => !(s == "")
  | .bytes _ => true

/-- The byte sequence a content value contributes to the hash: UTF-8 bytes
of a string (node's default for `hash.update(string)`), the bytes
themselves for a byte array. -/
def contentBytes : Content → List Nat
  | .str s => utf8Bytes s
  | .bytes bs => bs

/-- A rollup output-bundle record: an asset (`type === 'asset'`, carrying
`source: string | Uint8Array`) or a chunk (carrying `code: string`); both
carry a `fileName`. -/
inductive BundleItem where
  | asset : String → Content → BundleItem
  | chunk : String → String → BundleItem
deriving DecidableEq

/-- The `fileName` field of a bundle record. -/
def BundleItem.fileName : BundleItem → String
  | .asset fn _ => fn
  | .chunk fn _ => fn

/-- The content used for hashing: `t.source` for an asset, `t.code` for a
chunk (src/index.ts lines 100-104). -/
def itemContent : BundleItem → Content
  | .asset _ src => src
  | .chunk _ code => .str code

/-- The accumulated `OutputBundle`: a JS object keyed by artifact name,
modelled as an association list in property insertion order. -/
abbrev OutputBundle := List (String × BundleItem)

/-- JS property read `bundle[k]`: the value at the (unique) key, if any. -/
def lookupKey : OutputBundle → String → Option BundleItem
  | [], _ => none
  | (k', v) :: rest, k => if k' == k then some v else lookupKey rest k

/-- Whether the object has the key `k`. -/
def containsKey : OutputBundle → String → Bool
  | [], _ => false
  | (k', _) :: rest, k => k' == k || containsKey rest k

/-- JS property assignment `bundle[k] = v`: overwrite the existing key in
place, otherwise append the new property (src/index.ts line 48). -/
def mergeEntry : OutputBundle → String × BundleItem → OutputBundle
  | [], e => [e]
  | x :: rest, e => if x.1 == e.1 then e :: rest else x :: mergeEntry rest e

/-- The merge loop of `writeBundle` (src/index.ts lines 46-49):
`Object.entries(_bundle).forEach(([k, v]) => bundle[k] = v)`. -/
def mergeBundle (bundle nb : OutputBundle) : OutputBundle :=
  nb.foldl mergeEntry bundle

/-- Model of `Object.keys(bundle)`, in property order. -/
def keysOf (bundle : OutputBundle) : List String :=
  bundle.map (fun e => e.1)

/-- The keys of the object are pairwise distinct (always true of a JS
object; an invariant of every bundle the plugin ever builds). -/
def keysNodup (bundle : OutputBundle) : Prop :=
  (keysOf bundle).Nodup

/-- String suffix test modelling `filename.endsWith('.html')`. -/
def strEndsWith (s suf : String) : Bool :=
  suf.data.isSuffixOf s.data

/-- String test modelling `resourceUrl.indexOf(config.base) === 0`. -/
def strStartsWith (s pre : String) : Bool :=
  pre.data.isPrefixOf s.data

/-- String drop modelling `resourceUrl.substring(config.base.length)`
(only ever used when `pre` is a prefix of `s`, where dropping the prefix is
the same suffix whether positions are counted in code units or in
characters). -/
def dropChars (s : String) (n : Nat) : String :=
  String.mk (s.data.drop n)

/-- The html selection of `writeBundle` (src/index.ts lines 51-66): keys
ending in `.html` whose record is an asset, mapped to the record's
`fileName` paired with its `source`; chunk records are dropped by the
`filter(item => !!item)`. -/
def htmlsOf (bundle : OutputBundle) : List (String × Content) :=
  ((keysOf bundle).filter (fun k => strEndsWith k ".html")).filterMap
    (fun k =>
      match lookupKey bundle k with
      | some (.asset fn src) => some (fn, src)
      | _ => none)

/-- Base-path stripping (src/index.ts lines 81-84): pure prefix match on
`config.base`, no URL normalization of any kind. -/
def stripBase (base url : String) : String :=
  if strStartsWith url base then dropChars url base.length else url

/-- The bundle scan of the resolver (src/index.ts lines 86-88): the first
entry whose record's `fileName` field equals the candidate path. -/
def findByFileName (bundle : OutputBundle) (p : String) : Option (String × BundleItem) :=
  bundle.find? (fun e => e.2.fileName == p)

/-- The resolver body (src/index.ts lines 86-105): bundle lookup first,
else a warning plus the filesystem fallback under the output directory;
returns the resolved `source` value together with the warnings emitted. -/
def resolveSource (bundle : OutputBundle) (fs : String → Option (List Nat))
    (p : String) : Option Content × List String :=
  match findByFileName bundle p with
  | some e => (some (itemContent e.2), [])
  | none => ((fs p).map Content.bytes, ["cannot find " ++ p ++ " in output bundle."])

/-- JS truthiness of the resolved `source : string | Uint8Array | undefined`. -/
def sourceTruthy : Option Content → Bool
  | none => false
  | some c => c.truthy

/-- The integrity value the plugin writes for a given content
(src/index.ts lines 108-111). -/
def sriAttrValue (c : Content) : String :=
  "sha384-" ++ base64Encode (sha384Bytes (contentBytes c))

/-- An element's attribute object, in property insertion order. -/
abbrev Attrs := List (String × String)

/-- Attribute read `element.attribs[k]` (`undefined` is `none`). -/
def getAttr : Attrs → String → Option String
  | [], _ => none
  | (k', v') :: rest, k => if k' == k then some v' else getAttr rest k

/-- Attribute write `element.attribs[k] = v`: overwrite in place, else
append. -/
def setAttr : Attrs → String → String → Attrs
  | [], k, v => [(k, v)]
  | (k', v') :: rest, k, v =>
      if k' == k then (k, v) :: rest else (k', v') :: setAttr rest k v

/-- JS truthiness of `element.attribs.src`. -/
def truthyAttr : Option String → Bool
  | none => false
  | some s => !(s == "")

/-- The attribute the element is read through (src/index.ts line 78):
`element.attribs.src ? 'src' : 'href'`. -/
def refAttrName (a : Attrs) : String :=
  if truthyAttr (getAttr a "src") then "src" else "href"

/-- The body of `calculateIntegrityHashes` (src/index.ts lines 76-118)
acting on one element's attributes. Returns the updated attributes and the
warnings emitted, or `none` when the JS function throws (reading
`resourceUrl.indexOf` off `undefined`, which happens exactly when the
chosen reference attribute is absent). -/
def calcIntegrity (base : String) (bundle : OutputBundle)
    (fs : String → Option (List Nat)) (a : Attrs) : Option (Attrs × List String) :=
  match getAttr a (refAttrName a) with
  | none => none
  | some resourceUrl =>
      let resourcePath := stripBase base resourceUrl
      let sw := resolveSource bundle fs resourcePath
      let a1 := match sw.1 with
        | some c => if c.truthy then setAttr a "integrity" (sriAttrValue c) else a
        | none => a
      let a2 := if (getAttr a1 "crossorigin").isNone
        then setAttr a1 "crossorigin" "anonymous" else a1
      some (a2, sw.2)

/-- A node of the parsed document tree: text, or an element with a tag,
attributes and children. -/
inductive Node where
  | text : String → Node
  | elem : String → Attrs → List Node → Node

/-- Whether an element is selected by `$('script').filter('[src]')` or
`$('link').filter('[href]')` (src/index.ts lines 73-74); note no filtering
of `link` by `rel`. -/
def eligible (tag : String) (a : Attrs) : Bool :=
  (tag == "script" && (getAttr a "src").isSome)
    || (tag == "link" && (getAttr a "href").isSome)

mutual

/-- Apply `calculateIntegrityHashes` to every selected element of a node's
subtree; `none` when any element's processing throws (the `Promise.all`
rejects and the document is never serialized). -/
def rewriteNode (base : String) (bundle : OutputBundle)
    (fs : String → Option (List Nat)) : Node → Option (Node × List String)
  | .text s => some (.text s, [])
  | .elem tag a children =>
      match rewriteNodes base bundle fs children with
      | none => none
      | some (cs, w1) =>
        if eligible tag a then
          match calcIntegrity base bundle fs a with
          | none => none
          | some (a', w2) => some (.elem tag a' cs, w2 ++ w1)
        else some (.elem tag a cs, w1)

/-- Rewrite of a list of sibling nodes via `rewriteNode`. -/
def rewriteNodes (base : String) (bundle : OutputBundle)
    (fs : String → Option (List Nat)) : List Node → Option (List Node × List String)
  | [] => some ([], [])
  | n :: ns =>
      match rewriteNode base bundle fs n with
      | none => none
      | some (n', w1) =>
        match rewriteNodes base bundle fs ns with
        | none => none
        | some (ns', w2) => some (n' :: ns', w1 ++ w2)

end

mutual

/-- Serialize one node back to markup (the model of cheerio's `$.html()`). -/
def serializeNode : Node → String
  | .text s => s
  | .elem tag a cs =>
      "<" ++ tag ++ (a.foldl (fun acc e => acc ++ " " ++ e.1 ++ "=\x22" ++ e.2 ++ "\x22") "")
        ++ ">" ++ serializeNodes cs ++ "</" ++ tag ++ ">"

/-- Serialize a list of sibling nodes. -/
def serializeNodes : List Node → String
  | [] => ""
  | n :: ns => serializeNode n ++ serializeNodes ns

end

/-- One `writeBundle` invocation (src/index.ts lines 41-134): merge the
emitted bundle into the accumulator, select the html assets, rewrite each
and serialize it; returns the new accumulator together with the list of
`(fileName, markup)` pairs written to `root/outDir`. A document whose
rewrite throws is not written. -/
def writeBundleStep (base : String) (fs : String → Option (List Nat))
    (parse : Content → List Node) (bundle nb : OutputBundle) :
    OutputBundle × List (String × String) :=
  let merged := mergeBundle bundle nb
  (merged,
    (htmlsOf merged).filterMap (fun d =>
      (rewriteNodes base merged fs (parse d.2)).map
        (fun r => (d.1, serializeNodes r.1))))

/-! Helper lemmas about the association-list operations. -/

theorem getAttr_setAttr_self (a : Attrs) (k v : String) :
    getAttr (setAttr a k v) k = some v := by
  induction a with
  | nil => simp [setAttr, getAttr]
  | cons x rest ih =>
    obtain ⟨k', v'⟩ := x
    by_cases h : k' = k
    · subst h
      simp [setAttr, getAttr]
    · simp only [setAttr, getAttr, beq_iff_eq, if_neg h]
      exact ih

theorem getAttr_setAttr_ne (a : Attrs) (k v k' : String) (h : k' ≠ k) :
    getAttr (setAttr a k v) k' = getAttr a k' := by
  induction a with
  | nil => simp [setAttr, getAttr, beq_iff_eq, Ne.symm h]
  | cons x rest ih =>
    obtain ⟨k1, v1⟩ := x
    by_cases h1 : k1 = k
    · subst h1
      simp [setAttr, getAttr, beq_iff_eq, Ne.symm h]
    · simp only [setAttr, getAttr, beq_iff_eq, if_neg h1]
      by_cases h2 : k1 = k'
      · simp [h2]
      · simp only [if_neg h2]
        exact ih

theorem lookupKey_mergeEntry (m : OutputBundle) (e : String × BundleItem) (k : String) :
    lookupKey (mergeEntry m e) k = if e.1 = k then some e.2 else lookupKey m k := by
  induction m with
  | nil => simp [mergeEntry, lookupKey, beq_iff_eq]
  | cons x rest ih =>
    obtain ⟨k1, v1⟩ := x
    by_cases h1 : k1 = e.1
    · subst h1
      simp only [mergeEntry, beq_iff_eq, if_pos rfl, lookupKey]
      by_cases h2 : e.1 = k
      · simp [h2]
      · simp [h2, beq_iff_eq]
    · simp only [mergeEntry, beq_iff_eq, if_neg h1, lookupKey]
      by_cases h2 : k1 = k
      · subst h2
        have : e.1 ≠ k1 := fun hh => h1 hh.symm
        simp [beq_iff_eq, this]
      · simp only [beq_iff_eq, if_neg h2]
        exact ih

theorem containsKey_mergeEntry (m : OutputBundle) (e : String × BundleItem) (k : String) :
    containsKey (mergeEntry m e) k = (containsKey m k || (e.1 == k)) := by
  obtain ⟨ek, ev⟩ := e
  induction m with
  | nil => simp [mergeEntry, containsKey, Bool.or_comm]
  | cons x rest ih =>
    obtain ⟨k1, v1⟩ := x
    by_cases h1 : k1 = ek
    · simp only [mergeEntry, beq_iff_eq, if_pos h1, containsKey, h1]
      cases hc : containsKey rest k <;> cases he : (ek == k) <;> simp [hc, he]
    · simp only [mergeEntry, beq_iff_eq, if_neg h1, containsKey, ih]
      cases h2 : (k1 == k) <;> simp

theorem containsKey_mergeBundle_left (b nb : OutputBundle) (k : String)
    (h : containsKey b k = true) : containsKey (mergeBundle b nb) k = true := by
  induction nb generalizing b with
  | nil => exact h
  | cons e rest ih =>
    simp only [mergeBundle, List.foldl_cons]
    exact ih (mergeEntry b e) (by simp [containsKey_mergeEntry, h])

theorem lookupKey_mergeBundle_not_contains (b nb : OutputBundle) (k : String)
    (h : containsKey nb k = false) :
    lookupKey (mergeBundle b nb) k = lookupKey b k := by
  induction nb generalizing b with
  | nil => rfl
  | cons e rest ih =>
    obtain ⟨k1, v1⟩ := e
    simp only [containsKey, Bool.or_eq_false_iff, beq_eq_false_iff_ne] at h
    simp only [mergeBundle, List.foldl_cons]
    rw [show (List.foldl mergeEntry (mergeEntry b (k1, v1)) rest)
        = mergeBundle (mergeEntry b (k1, v1)) rest from rfl,
      ih (mergeEntry b (k1, v1)) h.2, lookupKey_mergeEntry]
    simp [h.1]

theorem mergeEntry_append_fresh (b r : OutputBundle) (e : String × BundleItem)
    (h : containsKey b e.1 = false) :
    mergeEntry (b ++ r) e = b ++ mergeEntry r e := by
  induction b with
  | nil => rfl
  | cons x rest ih =>
    obtain ⟨k1, v1⟩ := x
    simp only [containsKey, Bool.or_eq_false_iff, beq_eq_false_iff_ne] at h
    simp only [List.cons_append, mergeEntry, beq_iff_eq, if_neg h.1]
    exact congrArg (List.cons (k1, v1)) (ih h.2)

theorem mergeBundle_append_fresh (nb : OutputBundle) (b : OutputBundle)
    (h : ∀ x ∈ nb, containsKey b x.1 = false) :
    ∀ r : OutputBundle, ∃ r', mergeBundle (b ++ r) nb = b ++ r' := by
  induction nb with
  | nil => exact fun r => ⟨r, rfl⟩
  | cons e rest ih =>
    intro r
    have he : containsKey b e.1 = false := h e (List.mem_cons_self e rest)
    have hrest : ∀ x ∈ rest, containsKey b x.1 = false :=
      fun x hx => h x (List.mem_cons_of_mem e hx)
    simp only [mergeBundle, List.foldl_cons, mergeEntry_append_fresh b r e he]
    exact ih hrest (mergeEntry r e)

theorem mergeEntry_eq_self (m : OutputBundle) (k : String) (v : BundleItem)
    (h : lookupKey m k = some v) : mergeEntry m (k, v) = m := by
  induction m with
  | nil => simp [lookupKey] at h
  | cons x rest ih =>
    obtain ⟨k1, v1⟩ := x
    by_cases h1 : k1 = k
    · have hv : v1 = v := by
        have h' := h
        simp only [lookupKey, beq_iff_eq, if_pos h1, Option.some.injEq] at h'
        exact h'
      subst hv
      simp [mergeEntry, h1]
    · simp only [lookupKey, beq_iff_eq, if_neg h1] at h
      simp only [mergeEntry, beq_iff_eq, if_neg h1]
      rw [ih h]

theorem mergeBundle_eq_self (nb m : OutputBundle)
    (h : ∀ e ∈ nb, lookupKey m e.1 = some e.2) : mergeBundle m nb = m := by
  induction nb with
  | nil => rfl
  | cons e rest ih =>
    obtain ⟨k1, v1⟩ := e
    have he := h (k1, v1) (List.mem_cons_self _ rest)
    simp only [mergeBundle, List.foldl_cons, mergeEntry_eq_self m k1 v1 he]
    exact ih fun x hx => h x (List.mem_cons_of_mem _ hx)

theorem containsKey_iff_mem_keysOf (m : OutputBundle) (k : String) :
    containsKey m k = true ↔ k ∈ keysOf m := by
  induction m with
  | nil => simp [containsKey, keysOf]
  | cons x rest ih =>
    obtain ⟨k1, v1⟩ := x
    simp only [containsKey, keysOf, List.map_cons, List.mem_cons, Bool.or_eq_true,
      beq_iff_eq, ih]
    constructor
    · rintro (h | h)
      · exact Or.inl h.symm
      · exact Or.inr h
    · rintro (h | h)
      · exact Or.inl h.symm
      · exact Or.inr h

theorem lookupKey_mergeBundle_of_mem :
    ∀ (nb m : OutputBundle) (k : String) (v : BundleItem),
      (k, v) ∈ nb → keysNodup nb → lookupKey (mergeBundle m nb) k = some v := by
  intro nb
  induction nb with
  | nil =>
    intro m k v hmem _
    simp at hmem
  | cons e rest ih =>
    intro m k v hmem hnd
    have hnd' : e.1 ∉ keysOf rest ∧ keysNodup rest := by
      have hk : keysOf (e :: rest) = e.1 :: keysOf rest := by simp [keysOf]
      have h2 := hnd
      unfold keysNodup at h2
      rw [hk] at h2
      exact List.nodup_cons.mp h2
    rcases List.mem_cons.mp hmem with heq | hmem'
    · have hk : e = (k, v) := heq.symm
      subst hk
      have hnc : containsKey rest k = false := by
        by_contra hc
        rw [Bool.not_eq_false, containsKey_iff_mem_keysOf] at hc
        exact hnd'.1 hc
      simp only [mergeBundle, List.foldl_cons]
      rw [show (List.foldl mergeEntry (mergeEntry m (k, v)) rest)
          = mergeBundle (mergeEntry m (k, v)) rest from rfl,
        lookupKey_mergeBundle_not_contains _ _ _ hnc, lookupKey_mergeEntry]
      simp
    · simp only [mergeBundle, List.foldl_cons]
      exact ih (mergeEntry m e) k v hmem' hnd'.2

theorem mergeBundle_idem (b nb : OutputBundle) (hnd : keysNodup nb) :
    mergeBundle (mergeBundle b nb) nb = mergeBundle b nb := by
  apply mergeBundle_eq_self
  intro e he
  obtain ⟨k, v⟩ := e
  exact lookupKey_mergeBundle_of_mem nb b k v he hnd

/-- Characterization of `calculateIntegrityHashes` on an element whose
chosen reference attribute is present. -/
theorem calcIntegrity_spec (base : String) (bundle : OutputBundle)
    (fs : String → Option (List Nat)) (a : Attrs) (url : String)
    (h : getAttr a (refAttrName a) = some url) :
    calcIntegrity base bundle fs a =
      (let sw := resolveSource bundle fs (stripBase base url)
       let a1 := match sw.1 with
         | some c => if c.truthy then setAttr a "integrity" (sriAttrValue c) else a
         | none => a
       let a2 := if (getAttr a1 "crossorigin").isNone
         then setAttr a1 "crossorigin" "anonymous" else a1
       some (a2, sw.2)) := by
  unfold calcIntegrity
  rw [h]

/-- The integrity-setting stage of `calculateIntegrityHashes` leaves the
`crossorigin` attribute alone. -/
theorem getAttr_stage1_crossorigin (a : Attrs) (sw : Option Content) :
    getAttr (match sw with
      | some c => if c.truthy then setAttr a "integrity" (sriAttrValue c) else a
      | none => a) "crossorigin" = getAttr a "crossorigin" := by
  cases sw with
  | none => rfl
  | some c =>
    by_cases hc : c.truthy
    · simp only [hc, if_true]
      exact getAttr_setAttr_ne a "integrity" (sriAttrValue c) "crossorigin" (by decide)
    · simp [hc]

/-- Any attribute other than `integrity` and `crossorigin` is preserved by
`calculateIntegrityHashes`. -/
theorem calcIntegrity_other_attrs (base : String) (bundle : OutputBundle)
    (fs : String → Option (List Nat)) (a a' : Attrs) (ws : List String) (k : String)
    (h : calcIntegrity base bundle fs a = some (a', ws))
    (h1 : k ≠ "integrity") (h2 : k ≠ "crossorigin") :
    getAttr a' k = getAttr a k := by
  cases hu : getAttr a (refAttrName a) with
  | none =>
    unfold calcIntegrity at h
    rw [hu] at h
    exact absurd h (by simp)
  | some url =>
    rw [calcIntegrity_spec base bundle fs a url hu] at h
    simp only [Option.some.injEq, Prod.mk.injEq] at h
    obtain ⟨ha, -⟩ := h
    rw [← ha]
    have hstage1 : ∀ x : Attrs,
        getAttr (match (resolveSource bundle fs (stripBase base url)).1 with
          | some c => if c.truthy then setAttr x "integrity" (sriAttrValue c) else x
          | none => x) k = getAttr x k := by
      intro x
      cases (resolveSource bundle fs (stripBase base url)).1 with
      | none => rfl
      | some c =>
        by_cases hc : c.truthy
        · simp only [hc, if_true]
          exact getAttr_setAttr_ne x "integrity" (sriAttrValue c) k h1
        · simp [hc]
    by_cases hco : (getAttr (match (resolveSource bundle fs (stripBase base url)).1 with
        | some c => if c.truthy then setAttr a "integrity" (sriAttrValue c) else a
        | none => a) "crossorigin").isNone
    · rw [if_pos hco, getAttr_setAttr_ne _ "crossorigin" "anonymous" k h2, hstage1 a]
    · rw [if_neg hco, hstage1 a]

/-- C6: for every eligible element whose processing completes, an absent
`crossorigin` attribute becomes `crossorigin="anonymous"` (whether or not
resolution succeeded), and a pre-existing `crossorigin` value is kept
unchanged (src/index.ts lines 113-117). -/
theorem c6_crossorigin_default (base : String) (bundle : OutputBundle)
    (fs : String → Option (List Nat)) (a a' : Attrs) (ws : List String)
    (h : calcIntegrity base bundle fs a = some (a', ws)) :
    (getAttr a "crossorigin" = none → getAttr a' "crossorigin" = some "anonymous")
    ∧ (∀ v, getAttr a "crossorigin" = some v → getAttr a' "crossorigin" = some v) := by
  cases hu : getAttr a (refAttrName a) with
  | none =>
    unfold calcIntegrity at h
    rw [hu] at h
    exact absurd h (by simp)
  | some url =>
    rw [calcIntegrity_spec base bundle fs a url hu] at h
    simp only [Option.some.injEq, Prod.mk.injEq] at h
    obtain ⟨ha, -⟩ := h
    rw [← ha]
    constructor
    · intro hco
      rw [if_pos (by rw [getAttr_stage1_crossorigin a _, hco]; rfl)]
      exact getAttr_setAttr_self _ "crossorigin" "anonymous"
    · intro v hco
      rw [if_neg (by rw [getAttr_stage1_crossorigin a _, hco]; simp)]
      rw [getAttr_stage1_crossorigin a _, hco]

/-- C3: an element whose reference is absent from both the bundle and the
filesystem fallback is handled without failure: no `integrity` attribute
appears, the default `crossorigin` is applied, and the warning is emitted
(src/index.ts lines 90-98 and 107-117). -/
theorem c3_unresolved_graceful (base url : String) (bundle : OutputBundle)
    (fs : String → Option (List Nat)) (a : Attrs)
    (href : getAttr a (refAttrName a) = some url)
    (hfind : findByFileName bundle (stripBase base url) = none)
    (hfs : fs (stripBase base url) = none)
    (hint : getAttr a "integrity" = none)
    (hco : getAttr a "crossorigin" = none) :
    ∃ a' ws, calcIntegrity base bundle fs a = some (a', ws)
      ∧ getAttr a' "integrity" = none
      ∧ getAttr a' "crossorigin" = some "anonymous"
      ∧ ("cannot find " ++ stripBase base url ++ " in output bundle.") ∈ ws := by
  rw [calcIntegrity_spec base bundle fs a url href]
  have hmap : Option.map Content.bytes none = none := rfl
  simp only [resolveSource, hfind, hfs, hmap]
  refine ⟨_, _, rfl, ?_, ?_, ?_⟩
  · rw [if_pos (by rw [hco]; rfl)]
    rw [getAttr_setAttr_ne a "crossorigin" "anonymous" "integrity" (by decide)]
    exact hint
  · rw [if_pos (by rw [hco]; rfl)]
    exact getAttr_setAttr_self a "crossorigin" "anonymous"
  · simp

/-- C1 (amended): for every artifact found in the accumulated bundle whose
content is truthy (any byte array, or a non-empty string), rewriting an
element referencing it by its exact bundled path sets `integrity` to
`sha384-` followed by the base64 encoding of the SHA-384 digest of the
artifact's content (the `source` of an asset record, the `code` text of a
chunk record), per src/index.ts lines 100-111. -/
theorem c1_integrity_from_bundle (base url : String) (bundle : OutputBundle)
    (fs : String → Option (List Nat)) (a : Attrs) (k : String) (item : BundleItem)
    (href : getAttr a (refAttrName a) = some url)
    (hfind : findByFileName bundle (stripBase base url) = some (k, item))
    (htruthy : (itemContent item).truthy = true) :
    ∃ a' ws, calcIntegrity base bundle fs a = some (a', ws)
      ∧ getAttr a' "integrity"
          = some ("sha384-" ++ base64Encode (sha384Bytes (contentBytes (itemContent item)))) := by
  rw [calcIntegrity_spec base bundle fs a url href]
  simp only [resolveSource, hfind, htruthy, if_true]
  refine ⟨_, _, rfl, ?_⟩
  by_cases hco : (getAttr (setAttr a "integrity" (sriAttrValue (itemContent item)))
      "crossorigin").isNone
  · rw [if_pos hco,
      getAttr_setAttr_ne _ "crossorigin" "anonymous" "integrity" (by decide),
      getAttr_setAttr_self]
    rfl
  · rw [if_neg hco, getAttr_setAttr_self]
    rfl

/-- C1 counterexample: the artifact `a.js` is present in the bundle (as a
chunk whose `code` is the empty string), an element references it by its
exact bundled path, yet rewriting sets no `integrity` attribute, because
`if (source)` treats the empty string as false. -/
theorem c1_counterexample :
    findByFileName [("a.js", BundleItem.chunk "a.js" "")] "a.js"
        = some ("a.js", BundleItem.chunk "a.js" "")
    ∧ (calcIntegrity "/" [("a.js", BundleItem.chunk "a.js" "")]
          (fun _ => none) [("src", "a.js")]).map (fun r => getAttr r.1 "integrity")
        = some none := by
  exact ⟨rfl, rfl⟩

/-- C1 witness. -/
theorem c1_witness :
    ∃ a' ws, calcIntegrity "/" [("a.js", BundleItem.chunk "a.js" "x")]
        (fun _ => none) [("src", "a.js")] = some (a', ws)
      ∧ getAttr a' "integrity"
          = some ("sha384-" ++ base64Encode (sha384Bytes
              (contentBytes (itemContent (BundleItem.chunk "a.js" "x"))))) :=
  c1_integrity_from_bundle "/" "a.js" [("a.js", BundleItem.chunk "a.js" "x")]
    (fun _ => none) [("src", "a.js")] "a.js" (BundleItem.chunk "a.js" "x")
    rfl rfl rfl

/-- C9 (amended): a resolved content equal to the empty string (the falsy
case of `if (source)`) yields no `integrity` attribute while the default
`crossorigin` is still applied; but resolved byte content — in particular
bytes read from disk, a `Buffer`, which is truthy even when empty — always
receives an `integrity` attribute, the hash of those bytes. -/
theorem c9_empty_content (base url : String) (bundle : OutputBundle)
    (fs : String → Option (List Nat)) (a : Attrs)
    (href : getAttr a (refAttrName a) = some url) :
    ((resolveSource bundle fs (stripBase base url)).1 = some (Content.str "") →
      ∃ a' ws, calcIntegrity base bundle fs a = some (a', ws)
        ∧ getAttr a' "integrity" = getAttr a "integrity"
        ∧ (getAttr a "crossorigin" = none →
            getAttr a' "crossorigin" = some "anonymous"))
    ∧ (∀ bs, (resolveSource bundle fs (stripBase base url)).1 = some (Content.bytes bs) →
      ∃ a' ws, calcIntegrity base bundle fs a = some (a', ws)
        ∧ getAttr a' "integrity"
            = some ("sha384-" ++ base64Encode (sha384Bytes bs))) := by
  rw [calcIntegrity_spec base bundle fs a url href]
  constructor
  · intro hs
    simp only [hs]
    rw [if_neg (show ¬((Content.str "").truthy = true) from by decide)]
    refine ⟨_, _, rfl, ?_, ?_⟩
    · by_cases hco : (getAttr a "crossorigin").isNone
      · rw [if_pos hco,
          getAttr_setAttr_ne a "crossorigin" "anonymous" "integrity" (by decide)]
      · rw [if_neg hco]
    · intro hco
      rw [if_pos (by rw [hco]; rfl)]
      exact getAttr_setAttr_self a "crossorigin" "anonymous"
  · intro bs hs
    simp only [hs]
    rw [if_pos (show (Content.bytes bs).truthy = true from rfl)]
    refine ⟨_, _, rfl, ?_⟩
    by_cases hco : (getAttr (setAttr a "integrity" (sriAttrValue (Content.bytes bs)))
        "crossorigin").isNone
    · rw [if_pos hco,
        getAttr_setAttr_ne _ "crossorigin" "anonymous" "integrity" (by decide),
        getAttr_setAttr_self]
      rfl
    · rw [if_neg hco, getAttr_setAttr_self]
      rfl

/-- C9 counterexample: the reference `e.js` is absent from the bundle and
the filesystem fallback reads an empty file (an empty `Buffer`, which is
truthy in JS), so an `integrity` attribute IS set — the claim says empty
bytes read from disk should behave like an unresolved reference. -/
theorem c9_counterexample :
    (calcIntegrity "/" [] (fun p => if p == "e.js" then some [] else none)
        [("src", "e.js")]).map (fun r => (getAttr r.1 "integrity").isSome)
      = some true := by
  rfl

/-- C9 witness. -/
theorem c9_witness :
    (∃ a' ws, calcIntegrity "/" [("a.js", BundleItem.chunk "a.js" "")]
        (fun _ => none) [("src", "a.js")] = some (a', ws)
      ∧ getAttr a' "integrity" = getAttr [("src", "a.js")] "integrity"
      ∧ (getAttr [("src", "a.js")] "crossorigin" = none →
          getAttr a' "crossorigin" = some "anonymous"))
    ∧ (∃ a' ws, calcIntegrity "/" [] (fun p => if p == "e.js" then some [7] else none)
        [("src", "e.js")] = some (a', ws)
      ∧ getAttr a' "integrity"
          = some ("sha384-" ++ base64Encode (sha384Bytes [7]))) :=
  ⟨(c9_empty_content "/" "a.js" [("a.js", BundleItem.chunk "a.js" "")]
      (fun _ => none) [("src", "a.js")] rfl).1 rfl,
   (c9_empty_content "/" "e.js" [] (fun p => if p == "e.js" then some [7] else none)
      [("src", "e.js")] rfl).2 [7] rfl⟩

/-- A list is a prefix of itself extended on the right (stated for the
executable `List.isPrefixOf`). -/
theorem isPrefixOf_append_self (l r : List Char) : l.isPrefixOf (l ++ r) = true := by
  induction l with
  | nil => simp [List.isPrefixOf]
  | cons c cl ih => simp [List.isPrefixOf, ih]

/-- C4: base-path stripping is a pure prefix match (src/index.ts lines
81-84): a URL of the form `base ++ rest` yields the candidate key `rest`,
and resolves to the same artifact as the candidate key `rest` itself,
while a URL not starting with the base path is used verbatim as the
registry candidate key. -/
theorem c4_base_path_strip (base rest url : String) (bundle : OutputBundle)
    (fs : String → Option (List Nat)) :
    (stripBase base (base ++ rest) = rest
      ∧ resolveSource bundle fs (stripBase base (base ++ rest))
          = resolveSource bundle fs rest)
    ∧ (strStartsWith url base = false → stripBase base url = url) := by
  constructor
  · have hpre : strStartsWith (base ++ rest) base = true := by
      unfold strStartsWith
      rw [String.data_append]
      exact isPrefixOf_append_self base.data rest.data
    have hdrop : stripBase base (base ++ rest) = rest := by
      unfold stripBase
      rw [if_pos hpre]
      unfold dropChars
      rw [String.data_append]
      show String.mk (List.drop base.data.length (base.data ++ rest.data)) = rest
      rw [List.drop_left]
    exact ⟨hdrop, by rw [hdrop]⟩
  · intro h
    unfold stripBase
    rw [h]
    simp

/-- C4 witness. -/
theorem c4_witness :
    (stripBase "/b/" ("/b/" ++ "a.js") = "a.js"
      ∧ resolveSource [] (fun _ => none) (stripBase "/b/" ("/b/" ++ "a.js"))
          = resolveSource [] (fun _ => none) "a.js")
    ∧ stripBase "/b/" "x.css" = "x.css" :=
  ⟨(c4_base_path_strip "/b/" "a.js" "x.css" [] (fun _ => none)).1,
   (c4_base_path_strip "/b/" "a.js" "x.css" [] (fun _ => none)).2 (by decide)⟩

/-- The bundle scan by `fileName` agrees with lookup by registry key on
bundles whose keys equal their record's `fileName` (which holds of every
rollup output bundle). -/
theorem findByFileName_eq_lookupKey (bundle : OutputBundle) (p : String)
    (h : ∀ e ∈ bundle, e.1 = e.2.fileName) :
    (findByFileName bundle p).map (fun e => e.2) = lookupKey bundle p := by
  induction bundle with
  | nil => rfl
  | cons x rest ih =>
    obtain ⟨k1, v1⟩ := x
    have hx : k1 = v1.fileName := h (k1, v1) (List.mem_cons_self _ _)
    have hr : ∀ e ∈ rest, e.1 = e.2.fileName :=
      fun e he => h e (List.mem_cons_of_mem _ he)
    by_cases hp : v1.fileName = p
    · have hp' : (v1.fileName == p) = true := by simp [hp]
      have hk' : (k1 == p) = true := by simp [hx.trans hp]
      simp [findByFileName, lookupKey, List.find?, hp', hk']
    · have hk : k1 ≠ p := fun hh => hp (hx.symm.trans hh)
      have hp' : (v1.fileName == p) = false := by simp [hp]
      have hk' : (k1 == p) = false := by simp [hk]
      simp only [findByFileName, lookupKey, List.find?, hp', hk']
      exact ih hr

/-- C5: on a well-formed registry (keys equal record `fileName`s), step 2
of resolution looks the candidate key up as the registry name key, and a
found record contributes its content: the `source` of an asset record,
the `code` text of a chunk record (src/index.ts lines 86-105). -/
theorem c5_registry_lookup (bundle : OutputBundle) (fs : String → Option (List Nat))
    (p : String) (h : ∀ e ∈ bundle, e.1 = e.2.fileName) :
    (findByFileName bundle p).map (fun e => e.2) = lookupKey bundle p
    ∧ (∀ k fn src, findByFileName bundle p = some (k, BundleItem.asset fn src) →
        (resolveSource bundle fs p).1 = some src)
    ∧ (∀ k fn code, findByFileName bundle p = some (k, BundleItem.chunk fn code) →
        (resolveSource bundle fs p).1 = some (Content.str code)) := by
  refine ⟨findByFileName_eq_lookupKey bundle p h, ?_, ?_⟩
  · intro k fn src hf
    simp [resolveSource, hf, itemContent]
  · intro k fn code hf
    simp [resolveSource, hf, itemContent]

/-- C5 witness. -/
theorem c5_witness :
    (findByFileName [("a.js", BundleItem.asset "a.js" (Content.bytes [1, 2]))]
        "a.js").map (fun e => e.2)
      = lookupKey [("a.js", BundleItem.asset "a.js" (Content.bytes [1, 2]))] "a.js"
    ∧ (resolveSource [("a.js", BundleItem.asset "a.js" (Content.bytes [1, 2]))]
        (fun _ => none) "a.js").1 = some (Content.bytes [1, 2]) :=
  ⟨(c5_registry_lookup [("a.js", BundleItem.asset "a.js" (Content.bytes [1, 2]))]
      (fun _ => none) "a.js" (by decide)).1,
   (c5_registry_lookup [("a.js", BundleItem.asset "a.js" (Content.bytes [1, 2]))]
      (fun _ => none) "a.js" (by decide)).2.1 "a.js" "a.js" (Content.bytes [1, 2]) rfl⟩

/-- Utility: a successful `find?` on a list stays successful, with the same
result, on any extension of the list to the right. -/
theorem find?_append_left {α : Type} (p : α → Bool) (l r : List α) (x : α)
    (h : l.find? p = some x) : (l ++ r).find? p = some x := by
  rw [List.find?_append, h]
  rfl

/-- C2: the accumulated bundle of `writeBundle` (src/index.ts lines 46-49)
is append/merge-only: merging inserts or overwrites by key and never
removes earlier entries; entries whose key is untouched by the merge keep
their value; and when the merged bundle's keys are fresh, every reference
that resolved against the old registry still resolves to the same retained
entry afterwards (src/index.ts lines 86-88). -/
theorem c2_merge_append_only (b nb : OutputBundle) :
    (∀ k, containsKey b k = true → containsKey (mergeBundle b nb) k = true)
    ∧ (∀ k, containsKey nb k = false →
        lookupKey (mergeBundle b nb) k = lookupKey b k)
    ∧ ((∀ x ∈ nb, containsKey b x.1 = false) →
        ∀ p e, findByFileName b p = some e →
          findByFileName (mergeBundle b nb) p = some e) := by
  refine ⟨fun k h => containsKey_mergeBundle_left b nb k h,
    fun k h => lookupKey_mergeBundle_not_contains b nb k h,
    fun hf p e he => ?_⟩
  obtain ⟨r', hr⟩ := mergeBundle_append_fresh nb b hf []
  rw [List.append_nil] at hr
  rw [hr]
  exact find?_append_left _ b r' e he

/-- C2 witness: the two-pass scenario — bundle A holds `legacy.js`, bundle
B holds `index.html`; after merging A then B, `legacy.js` still resolves
from A's retained entry. -/
theorem c2_witness :
    findByFileName
        (mergeBundle [("legacy.js", BundleItem.chunk "legacy.js" "legacy code")]
          [("index.html", BundleItem.asset "index.html" (Content.str "<html></html>"))])
        "legacy.js"
      = some ("legacy.js", BundleItem.chunk "legacy.js" "legacy code") :=
  (c2_merge_append_only
      [("legacy.js", BundleItem.chunk "legacy.js" "legacy code")]
      [("index.html", BundleItem.asset "index.html" (Content.str "<html></html>"))]).2.2
    (by decide) "legacy.js" ("legacy.js", BundleItem.chunk "legacy.js" "legacy code") rfl

/-- C7: rewriting is deterministic and idempotent in output — a second
`writeBundle` invocation with the same emitted bundle leaves the
accumulator unchanged and produces byte-identical serialized output for
every html document (src/index.ts lines 68-133; the model is a pure
function, so determinism per call is definitional, and idempotence reduces
to merge idempotence of the accumulator). -/
theorem c7_rewrite_idempotent (base : String) (fs : String → Option (List Nat))
    (parse : Content → List Node) (b nb : OutputBundle) (h : keysNodup nb) :
    writeBundleStep base fs parse (writeBundleStep base fs parse b nb).1 nb
      = writeBundleStep base fs parse b nb := by
  have hm : mergeBundle (mergeBundle b nb) nb = mergeBundle b nb :=
    mergeBundle_idem b nb h
  simp only [writeBundleStep, hm]

/-- C7 witness. -/
theorem c7_witness :
    writeBundleStep "/" (fun _ => none) (fun _ => [])
        (writeBundleStep "/" (fun _ => none) (fun _ => [])
          [("app.js", BundleItem.chunk "app.js" "x")]
          [("page.html", BundleItem.asset "page.html" (Content.str "<p></p>"))]).1
        [("page.html", BundleItem.asset "page.html" (Content.str "<p></p>"))]
      = writeBundleStep "/" (fun _ => none) (fun _ => [])
          [("app.js", BundleItem.chunk "app.js" "x")]
          [("page.html", BundleItem.asset "page.html" (Content.str "<p></p>"))] :=
  c7_rewrite_idempotent "/" (fun _ => none) (fun _ => [])
    [("app.js", BundleItem.chunk "app.js" "x")]
    [("page.html", BundleItem.asset "page.html" (Content.str "<p></p>"))]
    (by simp [keysNodup, keysOf])

/-- C10: a registry entry is selected for rewriting exactly as an html
document when its key ends with `.html` and its record is an asset; a
chunk record whose key ends with `.html` contributes nothing and no output
is produced for it (src/index.ts lines 51-66). -/
theorem c10_html_selection (bundle : OutputBundle) :
    (∀ d ∈ htmlsOf bundle, ∃ k, strEndsWith k ".html" = true
        ∧ lookupKey bundle k = some (BundleItem.asset d.1 d.2))
    ∧ ((∀ k ∈ keysOf bundle, strEndsWith k ".html" = true →
          ∃ fn c, lookupKey bundle k = some (BundleItem.chunk fn c)) →
        htmlsOf bundle = []) := by
  constructor
  · intro d hd
    unfold htmlsOf at hd
    rw [List.mem_filterMap] at hd
    obtain ⟨k, hk, hfk⟩ := hd
    rw [List.mem_filter] at hk
    refine ⟨k, hk.2, ?_⟩
    cases hl : lookupKey bundle k with
    | none =>
      rw [hl] at hfk
      simp at hfk
    | some item =>
      cases item with
      | asset fn src =>
        rw [hl] at hfk
        simp only [Option.some.injEq] at hfk
        rw [← hfk]
      | chunk fn c =>
        rw [hl] at hfk
        simp at hfk
  · intro h
    unfold htmlsOf
    rw [List.filterMap_eq_nil_iff]
    intro k hk
    rw [List.mem_filter] at hk
    obtain ⟨fn, c, hl⟩ := h k hk.1 hk.2
    rw [hl]

/-- C10 witness: a bundle whose `index.html` key is an asset is selected;
a bundle whose only `.html` key is a chunk yields no html documents. -/
theorem c10_witness :
    (∃ k, strEndsWith k ".html" = true
      ∧ lookupKey [("index.html", BundleItem.asset "index.html" (Content.str "<p>hi</p>")),
          ("app.js", BundleItem.chunk "app.js" "x")] k
        = some (BundleItem.asset "index.html" (Content.str "<p>hi</p>")))
    ∧ htmlsOf [("index.html", BundleItem.chunk "index.html" "compiled html")] = [] :=
  ⟨(c10_html_selection
      [("index.html", BundleItem.asset "index.html" (Content.str "<p>hi</p>")),
        ("app.js", BundleItem.chunk "app.js" "x")]).1
      ("index.html", Content.str "<p>hi</p>") (by decide),
   (c10_html_selection [("index.html", BundleItem.chunk "index.html" "compiled html")]).2
      (by
        intro k hk hh
        have hk' : k = "index.html" := by
          simpa [keysOf] using hk
        subst hk'
        exact ⟨"index.html", "compiled html", rfl⟩)⟩

/-- Frame relation for the rewriter: the output node has the same shape as
the input, a non-selected element keeps its attributes verbatim, and even a
selected element keeps every attribute other than `integrity` and
`crossorigin`. -/
inductive Untouched : Node → Node → Prop where
  | text (s : String) : Untouched (Node.text s) (Node.text s)
  | elem (tag : String) (a a' : Attrs) (cs cs' : List Node)
      (hne : eligible tag a = false → a' = a)
      (hother : ∀ k, k ≠ "integrity" → k ≠ "crossorigin" → getAttr a' k = getAttr a k)
      (hcs : List.Forall₂ Untouched cs cs') :
      Untouched (Node.elem tag a cs) (Node.elem tag a' cs')

mutual

/-- A successful rewrite of one node only touches selected elements, and
only at their `integrity` and `crossorigin` attributes. -/
theorem rewriteNode_untouched (base : String) (bundle : OutputBundle)
    (fs : String → Option (List Nat)) :
    ∀ (n n' : Node) (ws : List String),
      rewriteNode base bundle fs n = some (n', ws) → Untouched n n'
  | Node.text s, n', ws, h => by
      simp only [rewriteNode, Option.some.injEq, Prod.mk.injEq] at h
      rw [← h.1]
      exact Untouched.text s
  | Node.elem tag a cs, n', ws, h => by
      simp only [rewriteNode] at h
      split at h
      · exact absurd h (by simp)
      · next cs' w1 heq =>
          split at h
          · next he =>
              split at h
              · exact absurd h (by simp)
              · next a1 w2 hci =>
                  simp only [Option.some.injEq, Prod.mk.injEq] at h
                  obtain ⟨hn, -⟩ := h
                  rw [← hn]
                  exact Untouched.elem tag a a1 cs cs'
                    (fun hf => by rw [hf] at he; exact absurd he Bool.false_ne_true)
                    (fun k h1 h2 =>
                      calcIntegrity_other_attrs base bundle fs a a1 w2 k hci h1 h2)
                    (rewriteNodes_untouched base bundle fs cs cs' w1 heq)
          · next he =>
              simp only [Option.some.injEq, Prod.mk.injEq] at h
              obtain ⟨hn, -⟩ := h
              rw [← hn]
              exact Untouched.elem tag a a cs cs' (fun _ => rfl) (fun k h1 h2 => rfl)
                (rewriteNodes_untouched base bundle fs cs cs' w1 heq)

/-- A successful rewrite of a node list is shape-preserving and only
touches selected elements. -/
theorem rewriteNodes_untouched (base : String) (bundle : OutputBundle)
    (fs : String → Option (List Nat)) :
    ∀ (ns ns' : List Node) (ws : List String),
      rewriteNodes base bundle fs ns = some (ns', ws) → List.Forall₂ Untouched ns ns'
  | [], ns', ws, h => by
      simp only [rewriteNodes, Option.some.injEq, Prod.mk.injEq] at h
      rw [← h.1]
      exact List.Forall₂.nil
  | n :: ns, ns', ws, h => by
      simp only [rewriteNodes] at h
      split at h
      · exact absurd h (by simp)
      · next n1 w1 hn =>
          split at h
          · exact absurd h (by simp)
          · next ns1 w2 hns =>
              simp only [Option.some.injEq, Prod.mk.injEq] at h
              obtain ⟨hl, -⟩ := h
              rw [← hl]
              exact List.Forall₂.cons
                (rewriteNode_untouched base bundle fs n n1 w1 hn)
                (rewriteNodes_untouched base bundle fs ns ns1 w2 hns)

end

/-- C8: the rewriter only modifies `script` elements carrying `src` and
`link` elements carrying `href` (with no filtering of `link` by `rel`), on
those writes only the `integrity` and `crossorigin` attributes, and
preserves all other markup, element ordering and structure
(src/index.ts lines 73-74 and 107-117). -/
theorem c8_rewriter_frame (base : String) (bundle : OutputBundle)
    (fs : String → Option (List Nat)) (ns ns' : List Node) (ws : List String)
    (h : rewriteNodes base bundle fs ns = some (ns', ws)) :
    List.Forall₂ Untouched ns ns'
    ∧ (∀ a : Attrs, eligible "script" a = (getAttr a "src").isSome)
    ∧ (∀ a : Attrs, eligible "link" a = (getAttr a "href").isSome) :=
  ⟨rewriteNodes_untouched base bundle fs ns ns' ws h,
   fun a => by simp [eligible],
   fun a => by simp [eligible]⟩

/-- C8 witness. -/
theorem c8_witness :
    List.Forall₂ Untouched
        [Node.elem "div" [("id", "x")] [Node.text "t"],
          Node.elem "script" [("src", "a.js")] []]
        [Node.elem "div" [("id", "x")] [Node.text "t"],
          Node.elem "script" [("src", "a.js"), ("crossorigin", "anonymous")] []]
      ∧ (∀ a : Attrs, eligible "script" a = (getAttr a "src").isSome)
      ∧ (∀ a : Attrs, eligible "link" a = (getAttr a "href").isSome) :=
  c8_rewriter_frame "/" [] (fun _ => none)
    [Node.elem "div" [("id", "x")] [Node.text "t"],
      Node.elem "script" [("src", "a.js")] []]
    [Node.elem "div" [("id", "x")] [Node.text "t"],
      Node.elem "script" [("src", "a.js"), ("crossorigin", "anonymous")] []]
    ["cannot find a.js in output bundle."]
    (by rfl)

/-- C3 witness. -/
theorem c3_witness :
    ∃ a' ws, calcIntegrity "/" [] (fun _ => none) [("src", "missing.js")] = some (a', ws)
      ∧ getAttr a' "integrity" = none
      ∧ getAttr a' "crossorigin" = some "anonymous"
      ∧ ("cannot find " ++ stripBase "/" "missing.js" ++ " in output bundle.") ∈ ws :=
  c3_unresolved_graceful "/" "missing.js" [] (fun _ => none) [("src", "missing.js")]
    rfl rfl rfl rfl rfl

/-- C6 witness. -/
theorem c6_witness :
    (getAttr [("href", "style.css")] "crossorigin" = none →
      getAttr [("href", "style.css"), ("crossorigin", "anonymous")] "crossorigin"
        = some "anonymous")
    ∧ (∀ v, getAttr [("href", "style.css")] "crossorigin" = some v →
      getAttr [("href", "style.css"), ("crossorigin", "anonymous")] "crossorigin"
        = some v) :=
  c6_crossorigin_default "/" [] (fun _ => none) [("href", "style.css")]
    [("href", "style.css"), ("crossorigin", "anonymous")]
    ["cannot find style.css in output bundle."] (by rfl)
